import Mathlib

/-!
Shallow embedding of `src/parse_court_links/parse_court_links.py` (the batch
court-link collector) and of the relevant functions of
`src/parse_court_links/api_processor.py`, with proofs about its caching,
pagination, error-classification and formatting behaviour.

Modelling conventions:
* JSON dictionaries are modelled by typed structures holding exactly the
  fields the code reads; `Option` marks fields whose absence (or Python
  falsiness) the code tolerates via `dict.get` / truthiness tests;
* the outcome of `requests.get` is modelled by `Transport`: either a network
  error (any `requests.exceptions.RequestException`, including the non-2xx
  HTTP errors raised by `raise_for_status`) or a parsed JSON envelope;
* the mutable cache dictionaries are modelled as association lists threaded
  through the functions, mirroring the in-place mutation of the source;
* the `LowBalanceError` exception is modelled as an explicit result
  constructor which every caller propagates without touching its caches,
  exactly as the exception unwinds in the source;
* every HTTP request and every invocation of the search step is recorded in
  an explicit trace, so that claims about "zero external calls" are
  statements inside the model;
* Python string primitives (`<` on `str`, `str.split`, `str.strip`,
  `str.lower`, substring membership) are re-implemented structurally on
  `List Char` so that the kernel can evaluate them; `str.lower` is modelled
  for ASCII and the Cyrillic range actually occurring in the data.
-/

namespace CourtLinks

/-- Python string comparison `a < b`: strict lexicographic order on code
points, as used by `sorted` on `list[str]`. -/
def cLt : List Char → List Char → Bool
  | [], [] => false
  | [], _ :: _ => true
  | _ :: _, [] => false
  | a :: as, b :: bs => if a < b then true else if b < a then false else cLt as bs

/-- Model of Python `a < b` on strings. -/
def sLt (a b : String) : Prop := cLt a.data b.data = true

/-- Model of Python `a <= b` on strings (the sort comparator of `sorted`). -/
def sLe (a b : String) : Prop := cLt b.data a.data = false

instance : DecidableRel sLt :=
  fun a b => inferInstanceAs (Decidable (cLt a.data b.data = true))

instance : DecidableRel sLe :=
  fun a b => inferInstanceAs (Decidable (cLt b.data a.data = false))

instance : IsTotal String sLe :=
  ⟨by
    have asym : ∀ x y : List Char, cLt x y = true → cLt y x = false := by
      intro x
      induction x with
      | nil => intro y h; cases y with
        | nil => simp [cLt] at h
        | cons b bs => simp [cLt]
      | cons a as ih =>
        intro y h
        cases y with
        | nil => simp [cLt] at h
        | cons b bs =>
          by_cases hab : a < b
          · have hba : ¬ b < a := lt_asymm hab
            simp [cLt, hab, hba]
          · by_cases hba : b < a
            · simp [cLt, hab, hba] at h
            · simp [cLt, hab, hba] at h ⊢
              exact ih bs h
    intro a b
    rcases h : cLt b.data a.data with _ | _
    · exact Or.inl h
    · exact Or.inr (asym _ _ h)⟩

instance : IsTrans String sLe :=
  ⟨by
    have conn : ∀ x z : List Char, cLt x z = true →
        ∀ y : List Char, cLt x y = true ∨ cLt y z = true := by
      intro x
      induction x with
      | nil =>
        intro z hz y
        cases z with
        | nil => simp [cLt] at hz
        | cons c cs =>
          cases y with
          | nil => exact Or.inr (by simp [cLt])
          | cons b bs => exact Or.inl (by simp [cLt])
      | cons a as ih =>
        intro z hz y
        cases z with
        | nil => simp [cLt] at hz
        | cons c cs =>
          cases y with
          | nil => exact Or.inr (by simp [cLt])
          | cons b bs =>
            rcases lt_trichotomy a b with hab | hab | hab
            · exact Or.inl (by simp [cLt, hab])
            · subst hab
              by_cases hac : a < c
              · exact Or.inr (by simp [cLt, hac])
              · by_cases hca : c < a
                · simp [cLt, hac, hca] at hz
                · simp only [cLt, if_neg hac, if_neg hca] at hz
                  rcases ih cs hz bs with h | h
                  · exact Or.inl (by simp [cLt, h])
                  · exact Or.inr (by simp [cLt, hac, hca, h])
            · by_cases hac : a < c
              · have hbc : b < c := lt_trans hab hac
                exact Or.inr (by simp [cLt, hbc])
              · by_cases hca : c < a
                · simp [cLt, hac, hca] at hz
                · have he : a = c := le_antisymm (not_lt.mp hca) (not_lt.mp hac)
                  have hbc : b < c := he ▸ hab
                  exact Or.inr (by simp [cLt, hbc])
    intro a b c hab hbc
    rcases h : cLt c.data a.data with _ | _
    · exact h
    · rcases conn c.data a.data h b.data with h' | h'
      · exact absurd h' (by simpa [sLe] using hbc)
      · exact absurd h' (by simpa [sLe] using hab)⟩

/-- Python `sep.split` for a one-character separator, on char lists:
`"a|b".split("|") = ["a","b"]`, `"".split("|") = [""]`. -/
def pySplitChar (sep : Char) : List Char → List (List Char)
  | [] => [[]]
  | c :: rest =>
    match pySplitChar sep rest with
    | [] => [[]]
    | x :: xs => if c = sep then [] :: x :: xs else (c :: x) :: xs

/-- Python `s.split(sep)` for a one-character separator. -/
def pySplit (sep : Char) (s : String) : List String :=
  (pySplitChar sep s.data).map String.mk

/-- Whitespace characters removed by Python `str.strip()` (the ASCII ones;
the data never contains exotic Unicode whitespace). -/
def isPySpace (c : Char) : Bool :=
  c = ' ' || c = '\t' || c = '\n' || c = '\x0d' || c = '\x0b' || c = '\x0c'

/-- Drops leading whitespace from a char list. -/
def dropWs : List Char → List Char
  | [] => []
  | c :: rest => if isPySpace c then dropWs rest else c :: rest

/-- Model of Python `s.strip()` / pandas `.str.strip()`. -/
def pyStrip (s : String) : String :=
  String.mk ((dropWs (dropWs s.data).reverse).reverse)

/-- Python `str.lower` restricted to the alphabets occurring in the data:
ASCII `A`-`Z` and Cyrillic `А`-`Я` / `Ё`. -/
def pyLowerChar (c : Char) : Char :=
  if ('A' ≤ c ∧ c ≤ 'Z') ∨ ('А' ≤ c ∧ c ≤ 'Я') then Char.ofNat (c.toNat + 32)
  else if c = 'Ё' then 'ё'
  else c

/-- Model of Python `s.lower()`. -/
def pyLower (s : String) : String := String.mk (s.data.map pyLowerChar)

/-- Checks whether `pat` is a leading segment of `l`. -/
def listStartsWith : List Char → List Char → Bool
  | [], _ => true
  | _ :: _, [] => false
  | p :: ps, c :: cs => p = c && listStartsWith ps cs

/-- Checks whether `pat` occurs contiguously inside `l`: Python `pat in s`. -/
def hasSubList (pat : List Char) : List Char → Bool
  | [] => pat.isEmpty
  | c :: rest => listStartsWith pat (c :: rest) || hasSubList pat rest

/-- Python substring membership `pat in s`. -/
def strHasSub (pat s : String) : Bool := hasSubList pat.data s.data

/-- Worker of `firstDedup`: keeps the elements not yet seen. -/
def firstDedupAux (seen : List String) : List String → List String
  | [] => []
  | x :: xs =>
    if x ∈ seen then firstDedupAux seen xs else x :: firstDedupAux (x :: seen) xs

/-- First-occurrence deduplication, the order-preserving set semantics of
`pandas.Series.unique` and of iterating a Python `set` built incrementally. -/
def firstDedup (l : List String) : List String := firstDedupAux [] l

/-- Adding an element to a Python `set` modelled as a duplicate-free list. -/
def addId (ids : List String) (i : String) : List String :=
  if i ∈ ids then ids else ids ++ [i]

/-- Caches are JSON objects: string-keyed mappings, modelled as association
lists; `cacheInsert` is `d[k] = v` (replace or append). -/
abbrev Cache (α : Type) := List (String × α)

/-- Python `d.get(k)`. -/
def cacheLookup {α : Type} : Cache α → String → Option α
  | [], _ => none
  | (k', v) :: rest, k => if k' = k then some v else cacheLookup rest k

/-- Python `d[k] = v`. -/
def cacheInsert {α : Type} : Cache α → String → α → Cache α
  | [], k, v => [(k, v)]
  | (k', v') :: rest, k, v =>
    if k' = k then (k, v) :: rest else (k', v') :: cacheInsert rest k v

/-! ## The API envelope and `make_api_request` (parse_court_links.py 18-109) -/

/-- `LOW_BALANCE_THRESHOLD = 100.0` (line 20). -/
def LOW_BALANCE_THRESHOLD : ℚ := 100

/-- Result sentinels (parse_court_links.py 22-26). -/
def RESULT_NO_CASES_FOUND : String := "Нет результатов, нужна ручная проверка"

def RESULT_NO_SUITABLE_DOCS : String := "Документы с решениями не найдены"

def RESULT_API_ERROR : String := "API Error during processing"

def RESULT_API_RETRY_ERROR : String := "Сетевая ошибка, требуется повторная попытка"

/-- The part of a parsed JSON envelope that `make_api_request` inspects,
plus the endpoint-specific remainder `payload`.
`balance`: `none` when `response["inquiry"]["balance"]` is absent,
`some none` when present but unparsable as a float, `some (some b)` when it
parses to `b`.  `status`: the `"status"` field (`none` when absent). -/
structure RawResponse (α : Type) where
  balance : Option (Option ℚ)
  status : Option Int
  payload : α
deriving DecidableEq

/-- Outcome of the underlying `requests.get`: a transport failure (timeout,
connection error, or non-2xx raised by `raise_for_status`) or a parsed
response. -/
inductive Transport (α : Type) where
  | netError
  | ok (resp : RawResponse α)
deriving DecidableEq

/-- Outcome of `make_api_request` as seen by its callers: the raised
`LowBalanceError`, the pair `(None, True)` (retryable), the pair
`(None, False)` (permanent, non-200 application status), or the pair
`(json, False)` (success). -/
inductive ApiResult (α : Type) where
  | lowBalance
  | retryable
  | permanent
  | success (resp : RawResponse α)
deriving DecidableEq

/-- `make_api_request` (parse_court_links.py 78-109).  The balance guard
(lines 88-98) runs before the application-status check (line 100); an
unparsable balance is logged and ignored; a network error is retryable. -/
def make_api_request {α : Type} : Transport α → ApiResult α
  | Transport.netError => ApiResult.retryable
  | Transport.ok r =>
    match r.balance with
    | some (some b) =>
      if b ≤ LOW_BALANCE_THRESHOLD then ApiResult.lowBalance
      else if r.status = some 200 then ApiResult.success r else ApiResult.permanent
    | _ => if r.status = some 200 then ApiResult.success r else ApiResult.permanent

/-! ## The search endpoint and `search_cases` (parse_court_links.py 111-218) -/

/-- One item of the search `"Result"` array; the code only reads the
(possibly absent) `"caseId"` key (membership test, line 168). -/
structure SearchCase where
  caseId : Option String
deriving DecidableEq

/-- Payload of one search page.  `result` is the `"Result"` array, with `[]`
standing for the falsy cases (absent, `null`, empty).  `pagesCount` is the
`"PagesCount"` field: `none` when absent (`.get` default `1`), `some none`
when present but unparsable by `int(...)`, `some (some k)` when it parses. -/
structure SearchPage where
  result : List SearchCase
  pagesCount : Option (Option Int)
deriving DecidableEq

/-- A search-cache entry: the legacy bare list shape, or the dict shape
`{case_ids, last_page_fetched, total_pages, is_complete}` (lines 128-142,
198, 210-215). -/
inductive SearchEntry where
  | legacy (ids : List String)
  | state (case_ids : List String) (last_page_fetched : Int) (total_pages : Int)
      (is_complete : Bool)
deriving DecidableEq

abbrev SearchCache := Cache SearchEntry

/-- Trace of externally visible actions: an HTTP request of the search
endpoint, an HTTP request of the caseInfo endpoint, or the start of one
search sequence (one invocation of `search_cases`). -/
inductive CallEv where
  | searchSeq (key : String)
  | searchHttp (key : String) (page : Int)
  | caseHttp (id : String)
deriving DecidableEq

abbrev Trace := List CallEv

/-- The cache-consultation step of `search_cases` (lines 128-144): a truthy
complete dict entry or a truthy legacy list entry short-circuits the search
and is returned as-is; everything else (no entry, falsy legacy `[]`, partial
dict) proceeds to the page loop. -/
def shortCircuit : Option SearchEntry → Option (List String)
  | some (SearchEntry.state ids _ _ true) => some ids
  | some (SearchEntry.legacy (i :: is)) => some (i :: is)
  | _ => none

/-- The resume state of `search_cases` (lines 123-138): a partial dict entry
resumes at `last_page_fetched + 1` with its collected ids (a Python `set`,
hence deduplicated); anything else starts fresh at page 1. -/
def resumeState : Option SearchEntry → List String × Int × Int
  | some (SearchEntry.state ids lp tp false) => (firstDedup ids, lp + 1, tp)
  | _ => ([], 1, 1)

/-- Exit of the page-fetching `while` loop of `search_cases`
(lines 157-187): the propagating `LowBalanceError`, the retryable return of
line 163, or fall-through with the final set of ids, the final `page_num`,
the final `total_pages` and the `did_break_early` flag. -/
inductive LoopExit where
  | lowBalance
  | retry
  | finished (ids : List String) (pageNum : Int) (totalPages : Int) (brokeEarly : Bool)
deriving DecidableEq

/-- Result of the page loop together with the HTTP requests it issued. -/
structure LoopOut where
  exit : LoopExit
  trace : Trace
deriving DecidableEq

/-- Adds the `"caseId"` of every result item to the id set (lines 167-169). -/
def collectIds (ids : List String) (cs : List SearchCase) : List String :=
  cs.foldl (fun acc c => match c.caseId with | some i => addId acc i | none => acc) ids

/-- The `while` loop of `search_cases` (lines 157-187), fuelled: the fuel is
chosen by the caller as the remaining number of admissible pages, so the
fuel-exhausted base case coincides with the loop condition being false. -/
def searchLoop (env : Int → Transport SearchPage) (key : String) (maxPages : Int) :
    Nat → List String → Int → Int → LoopOut
  | 0, ids, pageNum, totalPages =>
    ⟨LoopExit.finished ids pageNum totalPages false, []⟩
  | Nat.succ fuel, ids, pageNum, totalPages =>
    if pageNum ≤ totalPages ∧ pageNum ≤ maxPages then
      let ev := CallEv.searchHttp key pageNum
      match make_api_request (env pageNum) with
      | ApiResult.lowBalance => ⟨LoopExit.lowBalance, [ev]⟩
      | ApiResult.retryable => ⟨LoopExit.retry, [ev]⟩
      | ApiResult.permanent =>
        ⟨LoopExit.finished ids pageNum totalPages true, [ev]⟩
      | ApiResult.success r =>
        match r.payload.result with
        | [] => ⟨LoopExit.finished ids pageNum totalPages true, [ev]⟩
        | c :: cs =>
          let ids' := collectIds ids (c :: cs)
          match r.payload.pagesCount with
          | some none => ⟨LoopExit.finished ids' pageNum totalPages true, [ev]⟩
          | none =>
            let rest := searchLoop env key maxPages fuel ids' (pageNum + 1) 1
            ⟨rest.exit, ev :: rest.trace⟩
          | some (some k) =>
            let rest := searchLoop env key maxPages fuel ids' (pageNum + 1) k
            ⟨rest.exit, ev :: rest.trace⟩
    else ⟨LoopExit.finished ids pageNum totalPages false, []⟩

/-- Return value of `search_cases`: the raised `LowBalanceError`, the tuple
`(None, True, None)` (retryable), or `(ids, False, warning)`.  The source can
never return `(None, False, _)`: every non-retryable, non-raising path
returns an actual list. -/
inductive SearchRet where
  | lowBalance
  | retry
  | done (ids : List String) (warn : Option String)
deriving DecidableEq

structure SearchOut where
  r : SearchRet
  cache : SearchCache
  trace : Trace
deriving DecidableEq

/-- The post-loop result-saving step of `search_cases` (lines 189-218):
computes `last_page_processed` and `is_now_complete`, caches an empty
complete result, or sorts the id set, emits the page-limit warning when
applicable, and always writes the latest state to the cache. -/
def saveResults (cache : SearchCache) (key : String) (ids : List String)
    (pageNum totalPages : Int) (broke : Bool) (maxPages : Int) :
    SearchRet × SearchCache :=
  let lastPage := pageNum - 1
  let complete := decide (totalPages ≤ lastPage) || broke
  if ids.isEmpty && complete then
    (SearchRet.done [] none,
     cacheInsert cache key (SearchEntry.state [] lastPage totalPages true))
  else
    let warn :=
      if !complete && decide (maxPages < totalPages) then
        some ("собрано только " ++ toString maxPages ++ "/" ++ toString totalPages
          ++ " страниц")
      else none
    let sortedIds := List.insertionSort sLe ids
    (SearchRet.done sortedIds warn,
     cacheInsert cache key (SearchEntry.state sortedIds lastPage totalPages complete))

/-- The post-loop part of `search_cases`: the retryable return of line 163,
the propagating `LowBalanceError`, or the result-saving step. -/
def afterLoop (search_cache : SearchCache) (key : String) (max_pages_to_fetch : Int)
    (lo : LoopOut) : SearchOut :=
  match lo.exit with
  | LoopExit.lowBalance =>
    ⟨SearchRet.lowBalance, search_cache, CallEv.searchSeq key :: lo.trace⟩
  | LoopExit.retry =>
    ⟨SearchRet.retry, search_cache, CallEv.searchSeq key :: lo.trace⟩
  | LoopExit.finished ids pageNum totalPages broke =>
    let rc := saveResults search_cache key ids pageNum totalPages broke
      max_pages_to_fetch
    ⟨rc.1, rc.2, CallEv.searchSeq key :: lo.trace⟩

/-- The page-loop-and-save path of `search_cases` (the body run when the
cache did not short-circuit): resume state, page loop with exactly enough
fuel for the admissible page range, then the post-loop processing. -/
def searchMain (envk : Int → Transport SearchPage) (key : String)
    (search_cache : SearchCache) (max_pages_to_fetch : Int) : SearchOut :=
  let rs := resumeState (cacheLookup search_cache key)
  let fuel := (max_pages_to_fetch + 1 - rs.2.1).toNat
  afterLoop search_cache key max_pages_to_fetch
    (searchLoop envk key max_pages_to_fetch fuel rs.1 rs.2.1 rs.2.2)

/-- `search_cases` (parse_court_links.py 111-218).  `env key page` is the
transport outcome of requesting the given page of the search for `key`. -/
def search_cases (env : String → Int → Transport SearchPage)
    (debtor_inn creditor_inn : String) (search_cache : SearchCache)
    (max_pages_to_fetch : Int) : SearchOut :=
  let key := debtor_inn ++ "|" ++ creditor_inn
  match shortCircuit (cacheLookup search_cache key) with
  | some ids => ⟨SearchRet.done ids none, search_cache, [CallEv.searchSeq key]⟩
  | none => searchMain (env key) key search_cache max_pages_to_fetch

/-- Classifies a page outcome on which the page loop of `search_cases`
breaks early (setting `did_break_early`): a permanent API failure, a page
with a falsy `"Result"`, or an unparsable `"PagesCount"`. -/
def isBreakPage (t : Transport SearchPage) : Prop :=
  match make_api_request t with
  | ApiResult.permanent => True
  | ApiResult.success r => r.payload.result = [] ∨ r.payload.pagesCount = some none
  | _ => False

/-- The search-sequence markers of a trace: one per `search_cases`
invocation. -/
def seqKeys (tr : Trace) : List String :=
  tr.filterMap (fun e => match e with | CallEv.searchSeq k => some k | _ => none)

/-- A well-formed pair key: both INNs non-empty and free of the separator,
so that `main`'s `key.split("|")` recovers exactly the two INNs. -/
def ValidKey (k : String) : Prop :=
  ∃ d cr, pySplit '|' k = [d, cr] ∧ d ≠ "" ∧ cr ≠ "" ∧ d ++ "|" ++ cr = k

/-! ## The caseInfo endpoint and `get_case_info` (parse_court_links.py 220-236) -/

/-- One participant record; the code reads only the (possibly absent or
falsy-empty) `"INN"` key, via `p.get("INN")` truthiness. -/
structure Participant where
  inn : Option String
deriving DecidableEq

/-- The `"Participants"` object of a caseInfo result. -/
structure Participants where
  plaintiffs : List Participant
  respondents : List Participant
deriving DecidableEq

/-- One `"InstanceEvents"` item.  `eventTypeName` is `.get("EventTypeName", "")`;
`contentTypes` models `ContentTypes` after Python `str(...)`; `file`/`date`
are `none` when the `"File"`/`"Date"` values are absent or falsy. -/
structure InstanceEvent where
  eventTypeName : String
  contentTypes : List String
  file : Option String
  date : Option String
deriving DecidableEq

/-- One `"CaseInstances"` item. -/
structure CaseInstance where
  instanceEvents : List InstanceEvent
deriving DecidableEq

/-- The `"Result"` object of a caseInfo response. -/
structure CaseResult where
  participants : Participants
  caseInstances : List CaseInstance
deriving DecidableEq

/-- A full caseInfo JSON envelope; the payload is the `"Result"` object,
`none` when absent or falsy. -/
abbrev CaseResp := RawResponse (Option CaseResult)

abbrev CaseCache := Cache CaseResp

/-- Return value of `get_case_info`: the propagating `LowBalanceError` or
the tuple `(response, is_retryable)`. -/
inductive CaseRet where
  | lowBalance
  | ret (resp : Option CaseResp) (retryable : Bool)
deriving DecidableEq

structure CaseOut where
  r : CaseRet
  cache : CaseCache
  trace : Trace
deriving DecidableEq

/-- `get_case_info` (parse_court_links.py 220-236).  A cache hit returns the
cached response without a call; otherwise the API is called and only a
successful response is written to the cache (line 233-234). -/
def get_case_info (env : String → Transport (Option CaseResult)) (case_id : String)
    (case_info_cache : CaseCache) : CaseOut :=
  match cacheLookup case_info_cache case_id with
  | some r => ⟨CaseRet.ret (some r) false, case_info_cache, []⟩
  | none =>
    match make_api_request (env case_id) with
    | ApiResult.lowBalance =>
      ⟨CaseRet.lowBalance, case_info_cache, [CallEv.caseHttp case_id]⟩
    | ApiResult.retryable =>
      ⟨CaseRet.ret none true, case_info_cache, [CallEv.caseHttp case_id]⟩
    | ApiResult.permanent =>
      ⟨CaseRet.ret none false, case_info_cache, [CallEv.caseHttp case_id]⟩
    | ApiResult.success r =>
      ⟨CaseRet.ret (some r) false, cacheInsert case_info_cache case_id r,
        [CallEv.caseHttp case_id]⟩

/-! ## Document extraction and formatting (parse_court_links.py 241-289) -/

/-- An extracted document `{"Date": ..., "File": ...}`. -/
structure Document where
  date : String
  file : String
deriving DecidableEq

/-- The per-event decision test of `filter_and_extract_documents`
(parse_court_links.py 256-267): the event type is exactly `"Решение"` or
`"Решения"`, or it is `"Решения и постановления"` and some content type
contains `"решени"` but not `"резолют"` (case-insensitively). -/
def isDecisionEvent (ev : InstanceEvent) : Bool :=
  (ev.eventTypeName = "Решение" || ev.eventTypeName = "Решения")
  || (ev.eventTypeName = "Решения и постановления"
      && ev.contentTypes.any (fun ct =>
           strHasSub "решени" (pyLower ct) && !strHasSub "резолют" (pyLower ct)))

/-- `filter_and_extract_documents` (parse_court_links.py 241-274).  Takes
the whole caseInfo JSON (possibly `None`); an absent or falsy `"Result"`
yields `[]`.  Note that this variant performs no participant-role check. -/
def filter_and_extract_documents (case_info_json : Option CaseResp) : List Document :=
  match case_info_json with
  | none => []
  | some resp =>
    match resp.payload with
    | none => []
    | some res =>
      res.caseInstances.foldl (fun docs inst =>
        inst.instanceEvents.foldl (fun docs ev =>
          if isDecisionEvent ev then
            match ev.file, ev.date with
            | some f, some d => docs ++ [⟨d, f⟩]
            | _, _ => docs
          else docs) docs) []

/-- Numeric key of a document date under `pd.to_datetime(format="%d.%m.%Y",
errors="coerce")`: `none` models `NaT`.  The parser accepts 1-2 digit day
and month, 1-4 digit year, and calendar-valid days. -/
def parseNatDigits (cs : List Char) : Option ℕ :=
  if cs ≠ [] ∧ cs.all Char.isDigit then
    some (cs.foldl (fun n c => n * 10 + (c.toNat - 48)) 0)
  else none

def isLeapYear (y : ℕ) : Bool := (y % 4 = 0 && y % 100 ≠ 0) || y % 400 = 0

def daysInMonth (m y : ℕ) : ℕ :=
  if m = 2 then (if isLeapYear y then 29 else 28)
  else if m = 4 ∨ m = 6 ∨ m = 9 ∨ m = 11 then 30
  else 31

def parseDate (s : String) : Option ℕ :=
  match pySplitChar '.' s.data with
  | [ds, ms, ys] =>
    match parseNatDigits ds, parseNatDigits ms, parseNatDigits ys with
    | some d, some m, some y =>
      if 1 ≤ m ∧ m ≤ 12 ∧ 1 ≤ d ∧ d ≤ daysInMonth m y ∧ ds.length ≤ 2
          ∧ ms.length ≤ 2 ∧ ys.length ≤ 4 then
        some (y * 10000 + m * 100 + d)
      else none
    | _, _, _ => none
  | _ => none

/-- Sort key: a parsed date maps above every `NaT`. -/
def dkey (d : Document) : ℕ :=
  match parseDate d.date with
  | some n => n + 1
  | none => 0

/-- Descending-by-date comparator used to model `sorted(..., key=...,
reverse=True)`.  For documents with parsable dates (the case the sorting
claims are about) a stable sort with this comparator coincides with
CPython's stable descending sort; CPython's behaviour when `NaT` keys are
present is not a total order and is interpreter-defined, so it is not
modelled beyond totalising the comparator. -/
def docGe (a b : Document) : Prop := dkey b ≤ dkey a

instance : DecidableRel docGe := fun a b => Nat.decLe (dkey b) (dkey a)

instance : IsTotal Document docGe := ⟨fun a b => Nat.le_total (dkey b) (dkey a)⟩

instance : IsTrans Document docGe := ⟨fun _ _ _ h1 h2 => Nat.le_trans h2 h1⟩

/-- `format_results` (parse_court_links.py 276-289): empty list yields the
no-suitable-documents sentinel, otherwise the documents are stably sorted by
date descending and rendered as `Date: File` lines joined by newlines. -/
def format_results (documents : List Document) : String :=
  if documents.isEmpty then RESULT_NO_SUITABLE_DOCS
  else
    String.intercalate "\n"
      ((List.insertionSort docGe documents).map (fun doc => doc.date ++ ": " ++ doc.file))

/-! ## `process_inn_pair` (parse_court_links.py 292-324) -/

/-- Return value of `process_inn_pair`: the propagating `LowBalanceError` or
a result string. -/
inductive PairRet where
  | lowBalance
  | res (s : String)
deriving DecidableEq

structure PairOut where
  r : PairRet
  searchC : SearchCache
  caseC : CaseCache
  trace : Trace
deriving DecidableEq

/-- Exit of the per-case `for` loop of `process_inn_pair` (lines 306-317). -/
inductive CaseLoopRet where
  | lowBalance
  | retry
  | docs (docs : List Document)
deriving DecidableEq

structure CaseLoopOut where
  r : CaseLoopRet
  cache : CaseCache
  trace : Trace
deriving DecidableEq

/-- The per-case loop of `process_inn_pair` (lines 305-317): fetches each
case, aborts the whole pair on a retryable error, extracts documents from
truthy responses, skips falsy ones. -/
def updateDocs (acc : List Document) (resp : Option CaseResp) : List Document :=
  match resp with
  | some r => acc ++ filter_and_extract_documents (some r)
  | none => acc

def caseLoop (env : String → Transport (Option CaseResult)) :
    List String → CaseCache → List Document → CaseLoopOut
  | [], cic, acc => ⟨CaseLoopRet.docs acc, cic, []⟩
  | caseId :: rest, cic, acc =>
    match get_case_info env caseId cic with
    | ⟨CaseRet.lowBalance, cic', tr⟩ => ⟨CaseLoopRet.lowBalance, cic', tr⟩
    | ⟨CaseRet.ret resp retryable, cic', tr⟩ =>
      if retryable then ⟨CaseLoopRet.retry, cic', tr⟩
      else
        let rest' := caseLoop env rest cic' (updateDocs acc resp)
        ⟨rest'.r, rest'.cache, tr ++ rest'.trace⟩

/-- The deterministic external world of one run: the transport outcome of
every search page request (by pair key and page number) and of every
caseInfo request (by case id). -/
structure World where
  searchEnv : String → Int → Transport SearchPage
  caseEnv : String → Transport (Option CaseResult)

/-- `process_inn_pair` (parse_court_links.py 292-324).  The source also
checks `case_ids is None` (returning `RESULT_API_ERROR`), but `search_cases`
never produces that value, so the branch is unreachable and has no model
counterpart. -/
def process_inn_pair (w : World) (debtor_inn creditor_inn : String)
    (search_cache : SearchCache) (case_info_cache : CaseCache)
    (max_pages_to_fetch : Int) : PairOut :=
  match search_cases w.searchEnv debtor_inn creditor_inn search_cache max_pages_to_fetch with
  | ⟨SearchRet.lowBalance, sc', tr⟩ => ⟨PairRet.lowBalance, sc', case_info_cache, tr⟩
  | ⟨SearchRet.retry, sc', tr⟩ => ⟨PairRet.res RESULT_API_RETRY_ERROR, sc', case_info_cache, tr⟩
  | ⟨SearchRet.done ids warn, sc', tr⟩ =>
    if ids.isEmpty then ⟨PairRet.res RESULT_NO_CASES_FOUND, sc', case_info_cache, tr⟩
    else
      match caseLoop w.caseEnv ids case_info_cache [] with
      | ⟨CaseLoopRet.lowBalance, cic', tr'⟩ => ⟨PairRet.lowBalance, sc', cic', tr ++ tr'⟩
      | ⟨CaseLoopRet.retry, cic', tr'⟩ =>
        ⟨PairRet.res RESULT_API_RETRY_ERROR, sc', cic', tr ++ tr'⟩
      | ⟨CaseLoopRet.docs docs, cic', tr'⟩ =>
        let final := format_results docs
        let out := match warn with
          | some wmsg => wmsg ++ "\n" ++ final
          | none => final
        ⟨PairRet.res out, sc', cic', tr ++ tr'⟩

/-! ## The batch driver `main` (parse_court_links.py 329-438) -/

/-- The three caches of a run (search, caseInfo, results;
lines 381-384). -/
structure Caches where
  searchC : SearchCache
  caseC : CaseCache
  resultsC : Cache String
deriving DecidableEq

/-- One iteration of the key loop of `main` (lines 396-420): key splitting
with the two invalid-key sentinels, the pair processing, and the rule that
every result other than the retry sentinel is written to the results cache.
The result is `none` when `LowBalanceError` propagated out of the body.
Disk persistence (`save_cache`) has no in-memory effect and is not
modelled.  `finishKey` is the tail of the iteration: the propagating stop
or the conditional results-cache write (lines 412-420). -/
def finishKey (c : Caches) (key : String) (po : PairOut) :
    Option String × Caches × Trace :=
  match po.r with
  | PairRet.lowBalance => (none, ⟨po.searchC, po.caseC, c.resultsC⟩, po.trace)
  | PairRet.res result =>
    let rc' :=
      if result = RESULT_API_RETRY_ERROR then c.resultsC
      else cacheInsert c.resultsC key result
    (some result, ⟨po.searchC, po.caseC, rc'⟩, po.trace)

def processKey (w : World) (maxPages : Int) (key : String) (c : Caches) :
    Option String × Caches × Trace :=
  match pySplit '|' key with
  | [d, cr] =>
    finishKey c key
      (if d = "" ∨ cr = "" then
        ⟨PairRet.res "Invalid INN provided", c.searchC, c.caseC, []⟩
      else process_inn_pair w d cr c.searchC c.caseC maxPages)
  | _ =>
    (some "Invalid INN pair key",
     ⟨c.searchC, c.caseC, cacheInsert c.resultsC key "Invalid INN pair key"⟩, [])

structure RunOut where
  caches : Caches
  trace : Trace
  stopped : Bool
deriving DecidableEq

/-- The key loop of `main` (lines 395-423): processes the pending keys in
order and stops (`except LowBalanceError`) as soon as one key raises. -/
def runKeys (w : World) (maxPages : Int) : List String → Caches → RunOut
  | [], c => ⟨c, [], false⟩
  | k :: ks, c =>
    match processKey w maxPages k c with
    | (none, c', tr) => ⟨c', tr, true⟩
    | (some _, c', tr) =>
      let rest := runKeys w maxPages ks c'
      ⟨rest.caches, tr ++ rest.trace, rest.stopped⟩

/-- The composite cache key of a row (line 387):
`debtor_inn.strip() + "|" + creditor_inn.strip()`. -/
def mkKey (row : String × String) : String :=
  pyStrip row.1 ++ "|" ++ pyStrip row.2

/-- The pending keys (lines 388-392): unique row keys in first-occurrence
order that are not yet in the results cache. -/
def keysToFetch (rows : List (String × String)) (resultsCache : Cache String) :
    List String :=
  (firstDedup (rows.map mkKey)).filter (fun k => (cacheLookup resultsCache k).isNone)

structure MainOut where
  output : List String
  caches : Caches
  trace : Trace
  stopped : Bool
deriving DecidableEq

/-- `main` (parse_court_links.py 329-438), from the point where the input
table and caches are loaded: runs the key loop (catching the low-balance
stop), then maps every row's key through the results cache, defaulting to
the retry sentinel (`.map(results_cache)` + `fillna`, lines 426-428).
`output` is the appended result column, one entry per input row. -/
def main (w : World) (maxPages : Int) (rows : List (String × String))
    (c : Caches) : MainOut :=
  let ks := keysToFetch rows c.resultsC
  let ro := runKeys w maxPages ks c
  { output := rows.map (fun row =>
      (cacheLookup ro.caches.resultsC (mkKey row)).getD RESULT_API_RETRY_ERROR),
    caches := ro.caches, trace := ro.trace, stopped := ro.stopped }

end CourtLinks

namespace CourtLinks.ApiProcessor

/-- Result sentinel of the sibling module (api_processor.py 15); note it
differs from the one in parse_court_links.py. -/
def RESULT_NO_SUITABLE_DOCS : String := "Подходящие документы не найдены"

open CourtLinks

/-- The INNs of the case's plaintiffs (api_processor.py 89): the truthy
`"INN"` values of `Participants.Plaintiffs`. -/
def plaintiffINNs (res : CaseResult) : List String :=
  res.participants.plaintiffs.filterMap (fun p => p.inn)

/-- The INNs of the case's respondents (api_processor.py 90). -/
def respondentINNs (res : CaseResult) : List String :=
  res.participants.respondents.filterMap (fun p => p.inn)

/-- The per-event decision test of api_processor.py (lines 103-107): exact
type `"Решение"`, or type `"Решения и постановления"` with a content type
containing `"решение"` (no `"резолют"` exclusion in this variant). -/
def isDecisionEventAP (ev : InstanceEvent) : Bool :=
  ev.eventTypeName = "Решение"
  || (ev.eventTypeName = "Решения и постановления"
      && ev.contentTypes.any (fun ct => strHasSub "решение" (pyLower ct)))

/-- `filter_and_extract_documents` (api_processor.py 83-113): validates that
the expected creditor INN is among the plaintiffs and the expected debtor
INN among the respondents (by INN only), returning `[]` on mismatch, and
then extracts decision documents. -/
def filter_and_extract_documents (case_info_json : Option CaseResp)
    (debtor_inn creditor_inn : String) : List Document :=
  match case_info_json with
  | none => []
  | some resp =>
    match resp.payload with
    | none => []
    | some res =>
      if creditor_inn ∈ plaintiffINNs res ∧ debtor_inn ∈ respondentINNs res then
        res.caseInstances.foldl (fun docs inst =>
          inst.instanceEvents.foldl (fun docs ev =>
            if isDecisionEventAP ev then
              match ev.file, ev.date with
              | some f, some d => docs ++ [⟨d, f⟩]
              | _, _ => docs
            else docs) docs) []
      else []

/-- `format_results` (api_processor.py 116-126): like the parse_court_links
version but rendering numbered `N. Date: File` lines. -/
def format_results (documents : List Document) : String :=
  if documents.isEmpty then RESULT_NO_SUITABLE_DOCS
  else
    String.intercalate "\n"
      (((List.insertionSort docGe documents).enum).map
        (fun p => toString (p.1 + 1) ++ ". " ++ p.2.date ++ ": " ++ p.2.file))

end CourtLinks.ApiProcessor

namespace CourtLinks

/-! ## Concrete fixtures used to evaluate the model on closed inputs -/

/-- A successful search page with the given case ids and `PagesCount`
field. -/
def pageOk (ids : List String) (pc : Option (Option Int)) : Transport SearchPage :=
  Transport.ok ⟨none, some 200, ⟨ids.map (fun i => ⟨some i⟩), pc⟩⟩

/-- Interrupted pagination: page 1 succeeds (declaring 3 pages), page 2 and
later fail with a network error. -/
def envPageTwoDown : String → Int → Transport SearchPage := fun _ p =>
  if p = 1 then pageOk ["A"] (some (some 3)) else Transport.netError

/-- Healthy pagination: pages 1-3 succeed, each declaring 3 pages. -/
def envAllPagesUp : String → Int → Transport SearchPage := fun _ p =>
  if p = 1 then pageOk ["A"] (some (some 3))
  else if p = 2 then pageOk ["B"] (some (some 3))
  else pageOk ["C"] (some (some 3))

/-- A search page with one result whose `PagesCount` does not parse. -/
def envBadPagesCount : String → Int → Transport SearchPage := fun _ _ =>
  pageOk ["X"] (some none)

/-- One page whose ids arrive unsorted and with a duplicate. -/
def envUnsortedIds : String → Int → Transport SearchPage := fun _ _ =>
  pageOk ["B", "A", "B"] (some (some 1))

/-- A caseInfo endpoint answering with a permanent (non-200 status)
failure. -/
def envCasePermanent : String → Transport (Option CaseResult) := fun _ =>
  Transport.ok ⟨none, some 404, none⟩

/-- A caseInfo response whose balance field is below the threshold and whose
status is non-ok. -/
def respLowBalanceBadStatus : RawResponse (Option CaseResult) :=
  ⟨some (some 50), some 404, none⟩

/-- A world that never answers (used where the claim requires that no call
happens at all). -/
def worldDown : World :=
  ⟨fun _ _ => Transport.netError, fun _ => Transport.netError⟩

/-- A world whose searches all return a single empty page (no cases) with a
healthy balance, and whose caseInfo endpoint is never needed. -/
def worldNoCases : World :=
  ⟨fun _ _ => Transport.ok ⟨none, some 200, ⟨[], some (some 1)⟩⟩,
   fun _ => Transport.netError⟩

/-- A world where the search for key `"b|c"` trips the balance guard and
every other search returns an empty page. -/
def worldLowBalAtBC : World :=
  ⟨fun k _ =>
    if k = "b|c" then Transport.ok ⟨some (some 50), some 200, ⟨[], some (some 1)⟩⟩
    else Transport.ok ⟨none, some 200, ⟨[], some (some 1)⟩⟩,
   fun _ => Transport.netError⟩

/-- A caseInfo detail record whose participants (plaintiff INN `111`,
respondent INN `222`) do not match the expected pair but which contains one
decision event. -/
def mismatchedCaseResult : CaseResult :=
  ⟨⟨[⟨some "111"⟩], [⟨some "222"⟩]⟩,
   [⟨[⟨"Решение", [], some "http://x/a.pdf", some "01.03.2024"⟩]⟩]⟩

/-- The detail record wrapped in a successful envelope. -/
def mismatchedCaseResp : CaseResp := ⟨none, some 200, some mismatchedCaseResult⟩

/-- Two documents with parsable, out-of-order dates. -/
def docsFixture : List Document :=
  [⟨"01.03.2024", "http://x/a.pdf"⟩, ⟨"15.04.2024", "http://x/b.pdf"⟩]

/-- Empty caches. -/
def emptyCaches : Caches := ⟨[], [], []⟩

end CourtLinks

namespace CourtLinks

/-! ## General lemmas about the model -/

theorem cacheLookup_cacheInsert_self {α : Type} (c : Cache α) (k : String) (v : α) :
    cacheLookup (cacheInsert c k v) k = some v := by
  induction c with
  | nil => simp [cacheInsert, cacheLookup]
  | cons kv rest ih =>
    obtain ⟨k', v'⟩ := kv
    by_cases h : k' = k
    · simp [cacheInsert, h, cacheLookup]
    · simp [cacheInsert, h, cacheLookup, ih]

theorem saveResults_done (cache : SearchCache) (key : String) (ids : List String)
    (p t : Int) (b : Bool) (mp : Int) :
    ∃ ids' warn, (saveResults cache key ids p t b mp).1 = SearchRet.done ids' warn := by
  simp only [saveResults]
  split
  · exact ⟨_, _, rfl⟩
  · exact ⟨_, _, rfl⟩

theorem afterLoop_retry (cache : SearchCache) (key : String) (mp : Int) (lo : LoopOut)
    (h : (afterLoop cache key mp lo).r = SearchRet.retry) :
    (afterLoop cache key mp lo).cache = cache := by
  rcases lo with ⟨ex, tr⟩
  cases ex with
  | lowBalance => simp [afterLoop] at h
  | retry => simp [afterLoop]
  | finished ids p t b =>
    obtain ⟨ids', warn, hw⟩ := saveResults_done cache key ids p t b mp
    have : (saveResults cache key ids p t b mp).1 = SearchRet.retry := by
      simpa [afterLoop] using h
    rw [hw] at this
    cases this

theorem afterLoop_lowBalance (cache : SearchCache) (key : String) (mp : Int) (lo : LoopOut)
    (h : (afterLoop cache key mp lo).r = SearchRet.lowBalance) :
    (afterLoop cache key mp lo).cache = cache := by
  rcases lo with ⟨ex, tr⟩
  cases ex with
  | lowBalance => simp [afterLoop]
  | retry => simp [afterLoop] at h
  | finished ids p t b =>
    obtain ⟨ids', warn, hw⟩ := saveResults_done cache key ids p t b mp
    have : (saveResults cache key ids p t b mp).1 = SearchRet.lowBalance := by
      simpa [afterLoop] using h
    rw [hw] at this
    cases this

/-! ## C1 -/

/-- C1, counterexample.  From an empty search cache, page 1 of the search
for `d|c` succeeds (carrying the id `A` and declaring 3 pages) and page 2
fails with a retryable network error.  Contrary to the claim, the search
cache afterwards contains no entry at all for the key — the page-1 progress
is discarded — and a subsequent run against a healthy endpoint starts its
pagination at page 1, not at page 2. -/
theorem C1_counterexample :
    (search_cases envPageTwoDown "d" "c" [] 3).r = SearchRet.retry ∧
    make_api_request (envPageTwoDown "d|c" 1) =
      ApiResult.success ⟨none, some 200, ⟨[⟨some "A"⟩], some (some 3)⟩⟩ ∧
    (search_cases envPageTwoDown "d" "c" [] 3).cache = [] ∧
    (search_cases envAllPagesUp "d" "c" (search_cases envPageTwoDown "d" "c" [] 3).cache 3).trace
      = [CallEv.searchSeq "d|c", CallEv.searchHttp "d|c" 1, CallEv.searchHttp "d|c" 2,
         CallEv.searchHttp "d|c" 3] := by
  refine ⟨by decide, by decide, by decide, by decide⟩

/-- C1 (amended): on a retryable network failure during pagination,
`search_cases` returns the retry marker and leaves the search cache exactly
as it was — ids and page progress collected during the interrupted attempt
are discarded, so the next run resumes from the previously persisted state
(from scratch when none was ever saved), not from the page after the
failure. -/
theorem C1_amended_theorem (env : String → Int → Transport SearchPage)
    (d cr : String) (cache : SearchCache) (mp : Int)
    (h : (search_cases env d cr cache mp).r = SearchRet.retry) :
    (search_cases env d cr cache mp).cache = cache := by
  unfold search_cases at h ⊢
  rcases hsc : shortCircuit (cacheLookup cache (d ++ "|" ++ cr)) with _ | ids
  · simp only [hsc] at h ⊢
    unfold searchMain at h ⊢
    exact afterLoop_retry _ _ _ _ h
  · simp only [hsc] at h
    cases h

/-- C1, witness for the amended theorem at the concrete interrupted run. -/
theorem C1_amended_witness :
    (search_cases envPageTwoDown "d" "c" [] 3).r = SearchRet.retry ∧
    (search_cases envPageTwoDown "d" "c" [] 3).cache = [] :=
  ⟨by decide, C1_amended_theorem envPageTwoDown "d" "c" [] 3 (by decide)⟩

/-! ## C2 -/

/-- C2, counterexample.  A caseInfo call that ends in a permanent failure
(well-formed response, non-ok application status 404) leaves the caseInfo
cache untouched: contrary to the claim, a permanent failure does not result
in a cache write for the key, so the same case id is re-fetched on the next
run. -/
theorem C2_counterexample :
    make_api_request (envCasePermanent "case1") = ApiResult.permanent ∧
    (get_case_info envCasePermanent "case1" []).r = CaseRet.ret none false ∧
    (get_case_info envCasePermanent "case1" []).cache = [] := by
  refine ⟨by decide, by decide, by decide⟩

/-- C2 (amended): cache mutation is decided by the classifier per unit of
work, but not uniformly per call: a retryable caseInfo failure writes
nothing, a successful fresh caseInfo fetch writes the response, while a
permanent caseInfo failure also writes nothing (the case id is re-attempted
next run); at the pair level, the retry sentinel is never written to the
results cache and every other result (including permanent-error results) is
written under its key. -/
theorem C2_amended_theorem :
    (∀ env id cache, (get_case_info env id cache).r = CaseRet.ret none true →
      (get_case_info env id cache).cache = cache) ∧
    (∀ env id cache, (get_case_info env id cache).r = CaseRet.ret none false →
      (get_case_info env id cache).cache = cache) ∧
    (∀ env id cache r, cacheLookup cache id = none →
      make_api_request (env id) = ApiResult.success r →
      (get_case_info env id cache).cache = cacheInsert cache id r) ∧
    (∀ c key po res, (finishKey c key po).1 = some res →
      (res = RESULT_API_RETRY_ERROR →
        ((finishKey c key po).2.1).resultsC = c.resultsC) ∧
      (res ≠ RESULT_API_RETRY_ERROR →
        cacheLookup ((finishKey c key po).2.1).resultsC key = some res)) := by
  refine ⟨?_, ?_, ?_, ?_⟩
  · intro env id cache h
    rcases hc : cacheLookup cache id with _ | r0
    · rcases hm : make_api_request (env id) with _ | _ | _ | r1 <;>
        simp [get_case_info, hc, hm] at h ⊢
    · simp [get_case_info, hc] at h
  · intro env id cache h
    rcases hc : cacheLookup cache id with _ | r0
    · rcases hm : make_api_request (env id) with _ | _ | _ | r1 <;>
        simp [get_case_info, hc, hm] at h ⊢
    · simp [get_case_info, hc] at h
  · intro env id cache r hc hm
    simp [get_case_info, hc, hm]
  · intro c key po res h
    rcases po with ⟨pr, sc, cic, tr⟩
    cases pr with
    | lowBalance => simp [finishKey] at h
    | res result =>
      have hr : result = res := by simpa [finishKey] using h
      subst hr
      constructor
      · intro hres
        simp [finishKey, hres]
      · intro hres
        simp [finishKey, hres, cacheLookup_cacheInsert_self]

/-- C2, witness for the amended theorem: the retryable branch at a concrete
network failure, and the permanent branch at the concrete 404 response. -/
theorem C2_amended_witness :
    (get_case_info (fun _ => Transport.netError) "case1" []).cache = [] ∧
    (get_case_info envCasePermanent "case1" []).cache = [] :=
  ⟨C2_amended_theorem.1 (fun _ => Transport.netError) "case1" [] (by decide),
   C2_amended_theorem.2.1 envCasePermanent "case1" [] (by decide)⟩

/-! ## C4 -/

/-- C4, counterexample.  The `filter_and_extract_documents` of
parse_court_links.py (the variant the batch pipeline actually calls)
performs no participant-role validation: on a detail record whose
plaintiffs (`111`) do not contain the expected creditor id `999` and whose
respondents (`222`) do not contain the expected debtor id `888`, it still
returns the record's decision document instead of the empty list the claim
requires. -/
theorem C4_counterexample :
    "999" ∉ ApiProcessor.plaintiffINNs mismatchedCaseResult ∧
    "888" ∉ ApiProcessor.respondentINNs mismatchedCaseResult ∧
    filter_and_extract_documents (some mismatchedCaseResp) =
      [⟨"01.03.2024", "http://x/a.pdf"⟩] ∧
    filter_and_extract_documents (some mismatchedCaseResp) ≠ [] := by
  refine ⟨by decide, by decide, by decide, by decide⟩

/-- C4 (amended): only the api_processor.py variant validates participant
roles, by INN membership alone (no name matching exists anywhere in the
module): whenever the expected creditor INN is not among the record's
plaintiff INNs, or the expected debtor INN is not among its respondent
INNs, it returns the empty record list regardless of the record's decision
events.  The parse_court_links.py variant extracts documents without any
role validation. -/
theorem C4_amended_theorem (r : CaseResp) (res : CaseResult) (debtor creditor : String)
    (hres : r.payload = some res)
    (h : creditor ∉ ApiProcessor.plaintiffINNs res ∨
         debtor ∉ ApiProcessor.respondentINNs res) :
    ApiProcessor.filter_and_extract_documents (some r) debtor creditor = [] := by
  obtain ⟨bal, st, pl⟩ := r
  have hp : pl = some res := hres
  subst hp
  have hno : ¬ (creditor ∈ ApiProcessor.plaintiffINNs res ∧
      debtor ∈ ApiProcessor.respondentINNs res) := by
    rcases h with h | h <;> intro hc <;> exact h (by tauto)
  simp [ApiProcessor.filter_and_extract_documents, hno]

/-- C4, witness for the amended theorem at the concrete mismatched
record. -/
theorem C4_amended_witness :
    ApiProcessor.filter_and_extract_documents (some mismatchedCaseResp) "888" "999" = [] :=
  C4_amended_theorem mismatchedCaseResp mismatchedCaseResult "888" "999" rfl
    (Or.inl (by decide))

/-! ## C9 -/

theorem cLt_both_false_eq : ∀ x y : List Char, cLt x y = false → cLt y x = false → x = y := by
  intro x
  induction x with
  | nil =>
    intro y h1 h2
    cases y with
    | nil => rfl
    | cons b bs => simp [cLt] at h1
  | cons a as ih =>
    intro y h1 h2
    cases y with
    | nil => simp [cLt] at h2
    | cons b bs =>
      by_cases hab : a < b
      · simp [cLt, hab] at h1
      · by_cases hba : b < a
        · simp [cLt, hba] at h2
        · have hEq : a = b := le_antisymm (not_lt.mp hba) (not_lt.mp hab)
          subst hEq
          simp only [cLt, if_neg hab, if_neg hba] at h1 h2
          rw [ih bs h1 h2]

theorem sLt_of_sLe_ne (a b : String) (h1 : sLe a b) (h2 : a ≠ b) : sLt a b := by
  unfold sLe at h1
  unfold sLt
  rcases hab : cLt a.data b.data with _ | _
  · have hd : a.data = b.data := cLt_both_false_eq _ _ hab h1
    obtain ⟨da⟩ := a
    obtain ⟨db⟩ := b
    have hd' : da = db := by simpa using hd
    subst hd'
    exact absurd rfl h2
  · rfl

theorem sorted_sLt_insertionSort (l : List String) (h : l.Nodup) :
    List.Sorted sLt (List.insertionSort sLe l) := by
  have hs : List.Sorted sLe (List.insertionSort sLe l) := List.sorted_insertionSort sLe l
  have hn : (List.insertionSort sLe l).Nodup :=
    ((List.perm_insertionSort sLe l).nodup_iff).mpr h
  exact (hs.and hn).imp (fun hab => sLt_of_sLe_ne _ _ hab.1 hab.2)

theorem addId_nodup (ids : List String) (i : String) (h : ids.Nodup) :
    (addId ids i).Nodup := by
  unfold addId
  split
  · exact h
  · next hmem =>
    rw [List.nodup_append]
    refine ⟨h, List.nodup_singleton i, ?_⟩
    intro a ha hai
    rw [List.mem_singleton] at hai
    subst hai
    exact hmem ha

theorem collectIds_nodup (cs : List SearchCase) :
    ∀ ids : List String, ids.Nodup → (collectIds ids cs).Nodup := by
  induction cs with
  | nil => intro ids h; simpa [collectIds] using h
  | cons c cs ih =>
    intro ids h
    rcases c with ⟨ci⟩
    cases ci with
    | none => simpa [collectIds, List.foldl_cons] using ih ids h
    | some i =>
      simp only [collectIds, List.foldl_cons] at *
      exact ih _ (addId_nodup _ _ h)

theorem searchLoop_nodup (env : Int → Transport SearchPage) (key : String) (mp : Int) :
    ∀ (fuel : Nat) (ids : List String) (p t : Int), ids.Nodup →
    ∀ ids' p' t' b, (searchLoop env key mp fuel ids p t).exit = LoopExit.finished ids' p' t' b →
      ids'.Nodup := by
  intro fuel
  induction fuel with
  | zero =>
    intro ids p t h ids' p' t' b hexit
    simp only [searchLoop] at hexit
    obtain ⟨rfl, rfl, rfl, rfl⟩ := by simpa using hexit
    exact h
  | succ fuel ih =>
    intro ids p t h ids' p' t' b hexit
    simp only [searchLoop] at hexit
    by_cases hc : p ≤ t ∧ p ≤ mp
    · rw [if_pos hc] at hexit
      rcases hm : make_api_request (env p) with _ | _ | _ | r <;> simp only [hm] at hexit
      · cases hexit
      · cases hexit
      · obtain ⟨rfl, rfl, rfl, rfl⟩ := by simpa using hexit
        exact h
      · rcases hr : r.payload.result with _ | ⟨c0, cs0⟩ <;> simp only [hr] at hexit
        · obtain ⟨rfl, rfl, rfl, rfl⟩ := by simpa using hexit
          exact h
        · rcases hpc : r.payload.pagesCount with _ | pc0 <;> simp only [hpc] at hexit
          · exact ih _ _ _ (collectIds_nodup _ _ h) _ _ _ _ hexit
          · cases pc0 with
            | none =>
              simp only at hexit
              obtain ⟨rfl, rfl, rfl, rfl⟩ := by simpa using hexit
              exact collectIds_nodup _ _ h
            | some k =>
              simp only at hexit
              exact ih _ _ _ (collectIds_nodup _ _ h) _ _ _ _ hexit
    · rw [if_neg hc] at hexit
      obtain ⟨rfl, rfl, rfl, rfl⟩ := by simpa using hexit
      exact h

theorem mem_firstDedupAux :
    ∀ (l : List String) (seen : List String) (x : String),
      x ∈ firstDedupAux seen l → x ∈ l := by
  intro l
  induction l with
  | nil => intro seen x hx; simp [firstDedupAux] at hx
  | cons y ys ih =>
    intro seen x hx
    simp only [firstDedupAux] at hx
    by_cases hs : y ∈ seen
    · rw [if_pos hs] at hx
      exact List.mem_cons_of_mem _ (ih seen x hx)
    · rw [if_neg hs] at hx
      rcases List.mem_cons.mp hx with rfl | hx
      · exact List.mem_cons_self _ _
      · exact List.mem_cons_of_mem _ (ih (y :: seen) x hx)

theorem mem_firstDedup (l : List String) (x : String) (h : x ∈ firstDedup l) : x ∈ l :=
  mem_firstDedupAux l [] x h

theorem firstDedupAux_nodup :
    ∀ (l : List String) (seen : List String),
      (firstDedupAux seen l).Nodup ∧ ∀ x ∈ firstDedupAux seen l, x ∉ seen := by
  intro l
  induction l with
  | nil => intro seen; simp [firstDedupAux]
  | cons y ys ih =>
    intro seen
    simp only [firstDedupAux]
    by_cases hs : y ∈ seen
    · rw [if_pos hs]
      exact ih seen
    · rw [if_neg hs]
      obtain ⟨hnd, hnotin⟩ := ih (y :: seen)
      refine ⟨List.nodup_cons.mpr ⟨?_, hnd⟩, ?_⟩
      · intro hy
        exact hnotin y hy (List.mem_cons_self _ _)
      · intro x hx
        rcases List.mem_cons.mp hx with rfl | hx
        · exact hs
        · intro hxs
          exact hnotin x hx (List.mem_cons_of_mem _ hxs)

theorem firstDedup_nodup (l : List String) : (firstDedup l).Nodup :=
  (firstDedupAux_nodup l []).1

theorem resumeState_nodup (e : Option SearchEntry) : (resumeState e).1.Nodup := by
  rcases e with _ | e
  · simp [resumeState]
  · rcases e with ids | ⟨ids, lp, tp, cpl⟩
    · simp [resumeState]
    · cases cpl
      · simpa [resumeState] using firstDedup_nodup ids
      · simp [resumeState]

theorem saveResults_sorted (cache : SearchCache) (key : String) (ids0 : List String)
    (p t : Int) (b : Bool) (mp : Int) (hnd : ids0.Nodup) (ids : List String)
    (warn : Option String)
    (h : (saveResults cache key ids0 p t b mp).1 = SearchRet.done ids warn) :
    List.Sorted sLt ids ∧ ids.Nodup ∧
    ∃ lp tp cpl, cacheLookup (saveResults cache key ids0 p t b mp).2 key =
      some (SearchEntry.state ids lp tp cpl) := by
  simp only [saveResults] at h ⊢
  by_cases hc : (ids0.isEmpty && (decide (t ≤ p - 1) || b)) = true
  · rw [if_pos hc] at h ⊢
    obtain ⟨rfl, rfl⟩ : ids = [] ∧ warn = none := by simpa using h.symm
    exact ⟨List.sorted_nil, List.nodup_nil,
      ⟨p - 1, t, true, by simp [cacheLookup_cacheInsert_self]⟩⟩
  · rw [if_neg hc] at h ⊢
    simp only [SearchRet.done.injEq] at h
    obtain ⟨hids, -⟩ := h
    subst hids
    exact ⟨sorted_sLt_insertionSort ids0 hnd,
      ((List.perm_insertionSort sLe ids0).nodup_iff).mpr hnd,
      ⟨p - 1, t, decide (t ≤ p - 1) || b, by simp [cacheLookup_cacheInsert_self]⟩⟩

theorem afterLoop_done (cache : SearchCache) (key : String) (mp : Int) (lo : LoopOut)
    (hnd : ∀ ids0 p0 t0 b0, lo.exit = LoopExit.finished ids0 p0 t0 b0 → ids0.Nodup)
    (ids : List String) (warn : Option String)
    (h : (afterLoop cache key mp lo).r = SearchRet.done ids warn) :
    List.Sorted sLt ids ∧ ids.Nodup ∧
    ∃ lp tp cpl, cacheLookup (afterLoop cache key mp lo).cache key =
      some (SearchEntry.state ids lp tp cpl) := by
  rcases lo with ⟨ex, tr⟩
  cases ex with
  | lowBalance => simp [afterLoop] at h
  | retry => simp [afterLoop] at h
  | finished ids0 p0 t0 b0 =>
    have hnd' : ids0.Nodup := hnd ids0 p0 t0 b0 rfl
    have hsave : (saveResults cache key ids0 p0 t0 b0 mp).1 = SearchRet.done ids warn := by
      simpa [afterLoop] using h
    simpa [afterLoop] using saveResults_sorted cache key ids0 p0 t0 b0 mp hnd' ids warn hsave

theorem searchMain_done (envk : Int → Transport SearchPage) (key : String)
    (cache : SearchCache) (mp : Int) (ids : List String) (warn : Option String)
    (h : (searchMain envk key cache mp).r = SearchRet.done ids warn) :
    List.Sorted sLt ids ∧ ids.Nodup ∧
    ∃ lp tp cpl, cacheLookup (searchMain envk key cache mp).cache key =
      some (SearchEntry.state ids lp tp cpl) := by
  unfold searchMain at h ⊢
  exact afterLoop_done cache key mp _
    (fun ids0 p0 t0 b0 hex =>
      searchLoop_nodup envk key mp _ _ _ _ (resumeState_nodup (cacheLookup cache key))
        ids0 p0 t0 b0 hex)
    ids warn h

/-- C9: whenever `search_cases` is not short-circuited by a cached complete
entry (so it runs its page loop and reaches the result-saving step), the
list of case ids it returns and stores in the search-cache entry is
duplicate-free and strictly sorted in ascending lexicographic order
(`sLt`, the model of Python string comparison), whatever order and
multiplicity the pages delivered them in. -/
theorem C9_theorem (env : String → Int → Transport SearchPage) (d cr : String)
    (cache : SearchCache) (mp : Int)
    (hsc : shortCircuit (cacheLookup cache (d ++ "|" ++ cr)) = none)
    (ids : List String) (warn : Option String)
    (hdone : (search_cases env d cr cache mp).r = SearchRet.done ids warn) :
    List.Sorted sLt ids ∧ ids.Nodup ∧
    ∃ lp tp cpl,
      cacheLookup (search_cases env d cr cache mp).cache (d ++ "|" ++ cr) =
        some (SearchEntry.state ids lp tp cpl) := by
  unfold search_cases at hdone ⊢
  simp only [hsc] at hdone ⊢
  exact searchMain_done _ _ _ _ _ _ hdone

/-- C9, witness: a page delivering ids `B, A, B` is saved and returned as
the duplicate-free ascending list `A, B`. -/
theorem C9_witness :
    List.Sorted sLt ["A", "B"] ∧ (["A", "B"] : List String).Nodup ∧
    ∃ lp tp cpl,
      cacheLookup (search_cases envUnsortedIds "d" "c" [] 3).cache "d|c" =
        some (SearchEntry.state ["A", "B"] lp tp cpl) :=
  C9_theorem envUnsortedIds "d" "c" [] 3 (by decide) ["A", "B"] none (by decide)

/-! ## C7 -/

/-- C7, counterexample.  The api_processor.py formatter (one of the two
formatters the claim covers) renders numbered lines: on a single document it
produces `1. date: reference`, not the bare `date: reference` line the claim
specifies. -/
theorem C7_counterexample :
    ApiProcessor.format_results [⟨"01.03.2024", "http://x/a.pdf"⟩] =
      "1. 01.03.2024: http://x/a.pdf" ∧
    ApiProcessor.format_results [⟨"01.03.2024", "http://x/a.pdf"⟩] ≠
      "01.03.2024: http://x/a.pdf" := by
  refine ⟨by decide, by decide⟩

/-- C7 (amended): for the empty document list each formatter returns its
fixed no-suitable-documents sentinel; for a non-empty list whose dates all
parse as `dd.mm.yyyy`, both formatters render one line per document over the
same permutation of the documents sorted by date descending, joined by
newlines — parse_court_links.py as `date: reference` lines and
api_processor.py as `N. date: reference` lines.  (When some date does not
parse, pandas produces `NaT` keys, for which CPython's sort comparisons are
not a total order; the resulting order is interpreter-defined and is not
specified here.) -/
theorem C7_amended_theorem :
    format_results [] = RESULT_NO_SUITABLE_DOCS ∧
    ApiProcessor.format_results [] = ApiProcessor.RESULT_NO_SUITABLE_DOCS ∧
    ∀ docs : List Document, docs ≠ [] →
      (∀ d ∈ docs, (parseDate d.date).isSome) →
      ∃ l : List Document, List.Perm l docs ∧
        l.Pairwise (fun a b => (parseDate b.date).getD 0 ≤ (parseDate a.date).getD 0) ∧
        format_results docs =
          String.intercalate "\n" (l.map (fun doc => doc.date ++ ": " ++ doc.file)) ∧
        ApiProcessor.format_results docs =
          String.intercalate "\n"
            ((l.enum).map (fun q => toString (q.1 + 1) ++ ". " ++ q.2.date ++ ": " ++ q.2.file)) := by
  refine ⟨rfl, rfl, ?_⟩
  intro docs hne hall
  refine ⟨List.insertionSort docGe docs, List.perm_insertionSort docGe docs, ?_, ?_, ?_⟩
  · have hs : List.Sorted docGe (List.insertionSort docGe docs) :=
      List.sorted_insertionSort docGe docs
    refine List.Pairwise.imp_of_mem ?_ hs
    intro a b ha hb hab
    have hpa := hall a ((List.perm_insertionSort docGe docs).mem_iff.mp ha)
    have hpb := hall b ((List.perm_insertionSort docGe docs).mem_iff.mp hb)
    rcases hva : parseDate a.date with _ | va
    · rw [hva] at hpa; cases hpa
    rcases hvb : parseDate b.date with _ | vb
    · rw [hvb] at hpb; cases hpb
    unfold docGe dkey at hab
    rw [hva, hvb] at hab
    simp at hab ⊢
    omega
  · obtain ⟨d0, ds, rfl⟩ : ∃ d0 ds, docs = d0 :: ds := by
      cases docs with
      | nil => exact absurd rfl hne
      | cons d0 ds => exact ⟨d0, ds, rfl⟩
    simp [format_results]
  · obtain ⟨d0, ds, rfl⟩ : ∃ d0 ds, docs = d0 :: ds := by
      cases docs with
      | nil => exact absurd rfl hne
      | cons d0 ds => exact ⟨d0, ds, rfl⟩
    simp [ApiProcessor.format_results]

/-- C7, witness for the amended theorem at two concrete documents arriving
in ascending date order. -/
theorem C7_amended_witness :
    ∃ l : List Document, List.Perm l docsFixture ∧
      l.Pairwise (fun a b => (parseDate b.date).getD 0 ≤ (parseDate a.date).getD 0) ∧
      format_results docsFixture =
        String.intercalate "\n" (l.map (fun doc => doc.date ++ ": " ++ doc.file)) ∧
      ApiProcessor.format_results docsFixture =
        String.intercalate "\n"
          ((l.enum).map (fun q => toString (q.1 + 1) ++ ". " ++ q.2.date ++ ": " ++ q.2.file)) :=
  C7_amended_theorem.2.2 docsFixture (by decide) (by decide)

/-! ## C6 -/

theorem keysToFetch_nil (rows : List (String × String)) (rc : Cache String)
    (hw : ∀ row ∈ rows, (cacheLookup rc (mkKey row)).isSome = true) :
    keysToFetch rows rc = [] := by
  unfold keysToFetch
  rw [List.filter_eq_nil_iff]
  intro k hk
  obtain ⟨row, hrow, rfl⟩ := List.mem_map.mp (mem_firstDedup _ _ hk)
  have hsome := hw row hrow
  rcases hv : cacheLookup rc (mkKey row) with _ | v
  · rw [hv] at hsome; cases hsome
  · simp [hv]

/-- C6: with a warm results cache (an entry for every row's key), the batch
driver issues zero external calls, leaves every cache unchanged, and a
second run on the unchanged input and the resulting caches is equal in
every observable (output column included) to the first — no key present in
the results cache is ever re-fetched. -/
theorem C6_theorem (w : World) (mp : Int) (rows : List (String × String)) (c : Caches)
    (hw : ∀ row ∈ rows, (cacheLookup c.resultsC (mkKey row)).isSome = true) :
    (main w mp rows c).trace = [] ∧
    (main w mp rows c).caches = c ∧
    main w mp rows ((main w mp rows c).caches) = main w mp rows c := by
  have hk : keysToFetch rows c.resultsC = [] := keysToFetch_nil rows c.resultsC hw
  have hc : (main w mp rows c).caches = c := by simp [main, hk, runKeys]
  refine ⟨by simp [main, hk, runKeys], hc, by rw [hc]⟩

/-- C6, witness at a two-row input (one duplicate key) with its key already
cached. -/
theorem C6_witness :
    (main worldDown 1 [("1", "2"), ("1", "2")] ⟨[], [], [("1|2", "cached")]⟩).trace = [] ∧
    (main worldDown 1 [("1", "2"), ("1", "2")] ⟨[], [], [("1|2", "cached")]⟩).caches =
      ⟨[], [], [("1|2", "cached")]⟩ ∧
    main worldDown 1 [("1", "2"), ("1", "2")]
        ((main worldDown 1 [("1", "2"), ("1", "2")] ⟨[], [], [("1|2", "cached")]⟩).caches) =
      main worldDown 1 [("1", "2"), ("1", "2")] ⟨[], [], [("1|2", "cached")]⟩ :=
  C6_theorem worldDown 1 [("1", "2"), ("1", "2")] ⟨[], [], [("1|2", "cached")]⟩ (by decide)

/-! ## C5 -/

theorem finishKey_stop_resultsC (c : Caches) (key : String) (po : PairOut)
    (h : (finishKey c key po).1 = none) :
    ((finishKey c key po).2.1).resultsC = c.resultsC := by
  rcases po with ⟨pr, sc, cic, tr⟩
  cases pr with
  | lowBalance => simp [finishKey]
  | res result => simp [finishKey] at h

theorem processKey_stop_resultsC (w : World) (mp : Int) (k : String) (c : Caches)
    (h : (processKey w mp k c).1 = none) :
    ((processKey w mp k c).2.1).resultsC = c.resultsC := by
  unfold processKey at h ⊢
  rcases hsp : pySplit '|' k with _ | ⟨d, _ | ⟨cr, _ | ⟨x, xs⟩⟩⟩ <;>
    simp only [hsp] at h ⊢
  · cases h
  · cases h
  · exact finishKey_stop_resultsC _ _ _ h
  · cases h

/-- C5: once a key's processing raises the low-balance stop (after a prefix
of keys that completed normally), the run is equal — caches, trace of
external calls, everything — to the run that ends at that key: the pending
keys after it contribute no external call and no cache entry; moreover the
results cache is exactly the one accumulated before the stopping key, so
`main`'s output (a total function — the stop is caught, never re-raised)
maps keys resolved before the stop to their cached results and every
unresolved key to the retry sentinel. -/
theorem C5_theorem (w : World) (mp : Int) (ks1 : List String) (k : String)
    (ks2 : List String) (c : Caches)
    (h1 : (runKeys w mp ks1 c).stopped = false)
    (h2 : (processKey w mp k (runKeys w mp ks1 c).caches).1 = none) :
    runKeys w mp (ks1 ++ k :: ks2) c = runKeys w mp (ks1 ++ [k]) c ∧
    (runKeys w mp (ks1 ++ k :: ks2) c).caches.resultsC =
      (runKeys w mp ks1 c).caches.resultsC ∧
    (runKeys w mp (ks1 ++ k :: ks2) c).stopped = true := by
  induction ks1 generalizing c with
  | nil =>
    simp only [runKeys] at h2
    rcases hp : processKey w mp k c with ⟨o, c', tr⟩
    rw [hp] at h2
    obtain rfl : o = none := h2
    refine ⟨?_, ?_, ?_⟩
    · simp [runKeys, hp]
    · have hres := processKey_stop_resultsC w mp k c (by rw [hp])
      rw [hp] at hres
      simp only [runKeys, hp]
      simpa using hres
    · simp [runKeys, hp]
  | cons k1 ks1' ih =>
    rcases hp1 : processKey w mp k1 c with ⟨o1, c1, tr1⟩
    cases o1 with
    | none =>
      rw [show runKeys w mp (k1 :: ks1') c = ⟨c1, tr1, true⟩ by simp [runKeys, hp1]] at h1
      cases h1
    | some r1 =>
      have hrw : runKeys w mp (k1 :: ks1') c =
          ⟨(runKeys w mp ks1' c1).caches, tr1 ++ (runKeys w mp ks1' c1).trace,
           (runKeys w mp ks1' c1).stopped⟩ := by
        simp [runKeys, hp1]
      rw [hrw] at h1 h2
      obtain ⟨e1, e2, e3⟩ := ih c1 h1 h2
      refine ⟨?_, ?_, ?_⟩
      · simp only [List.cons_append, runKeys, hp1, List.append_eq]
        rw [e1]
      · simp only [List.cons_append, runKeys, hp1, List.append_eq]
        simpa using e2
      · simp only [List.cons_append, runKeys, hp1, List.append_eq]
        simpa using e3

/-- C5, witness: five pending keys, the guard trips at the second; the run
equals the two-key run, the results cache keeps only the first key's entry,
and the run reports the stop. -/
theorem C5_witness :
    runKeys worldLowBalAtBC 1 (["a|b"] ++ "b|c" :: ["c|d", "e|f", "g|h"]) emptyCaches =
      runKeys worldLowBalAtBC 1 (["a|b"] ++ ["b|c"]) emptyCaches ∧
    (runKeys worldLowBalAtBC 1 (["a|b"] ++ "b|c" :: ["c|d", "e|f", "g|h"])
        emptyCaches).caches.resultsC =
      (runKeys worldLowBalAtBC 1 ["a|b"] emptyCaches).caches.resultsC ∧
    (runKeys worldLowBalAtBC 1 (["a|b"] ++ "b|c" :: ["c|d", "e|f", "g|h"])
        emptyCaches).stopped = true :=
  C5_theorem worldLowBalAtBC 1 ["a|b"] "b|c" ["c|d", "e|f", "g|h"] emptyCaches
    (by decide) (by decide)

/-! ## C3 -/

theorem searchLoop_finished_exits (env : Int → Transport SearchPage) (key : String)
    (mp : Int) :
    ∀ (fuel : Nat) (ids : List String) (p t : Int),
      (mp + 1 - p).toNat ≤ fuel →
      ∀ ids' p' t' b,
        (searchLoop env key mp fuel ids p t).exit = LoopExit.finished ids' p' t' b →
        (b = true → p' ≤ mp ∧ isBreakPage (env p')) ∧
        (b = false → t' < p' ∨ mp < p') := by
  intro fuel
  induction fuel with
  | zero =>
    intro ids p t hfuel ids' p' t' b hexit
    simp only [searchLoop] at hexit
    obtain ⟨rfl, rfl, rfl, rfl⟩ := by simpa using hexit
    refine ⟨fun hb => by simp at hb, fun _ => ?_⟩
    omega
  | succ fuel ih =>
    intro ids p t hfuel ids' p' t' b hexit
    simp only [searchLoop] at hexit
    by_cases hc : p ≤ t ∧ p ≤ mp
    · rw [if_pos hc] at hexit
      rcases hm : make_api_request (env p) with _ | _ | _ | r <;> simp only [hm] at hexit
      · cases hexit
      · cases hexit
      · obtain ⟨rfl, rfl, rfl, rfl⟩ := by simpa using hexit
        refine ⟨fun _ => ⟨hc.2, ?_⟩, fun hb => by simp at hb⟩
        unfold isBreakPage
        rw [hm]
        trivial
      · rcases hr : r.payload.result with _ | ⟨c0, cs0⟩ <;> simp only [hr] at hexit
        · obtain ⟨rfl, rfl, rfl, rfl⟩ := by simpa using hexit
          refine ⟨fun _ => ⟨hc.2, ?_⟩, fun hb => by simp at hb⟩
          unfold isBreakPage
          rw [hm]
          exact Or.inl hr
        · rcases hpc : r.payload.pagesCount with _ | pc0 <;> simp only [hpc] at hexit
          · exact ih _ _ _ (by omega) _ _ _ _ hexit
          · cases pc0 with
            | none =>
              simp only at hexit
              obtain ⟨rfl, rfl, rfl, rfl⟩ := by simpa using hexit
              refine ⟨fun _ => ⟨hc.2, ?_⟩, fun hb => by simp at hb⟩
              unfold isBreakPage
              rw [hm]
              exact Or.inr hpc
            | some kk =>
              simp only at hexit
              exact ih _ _ _ (by omega) _ _ _ _ hexit
    · rw [if_neg hc] at hexit
      obtain ⟨rfl, rfl, rfl, rfl⟩ := by simpa using hexit
      refine ⟨fun hb => by simp at hb, fun _ => ?_⟩
      omega

theorem saveResults_entry (cache : SearchCache) (key : String) (ids0 : List String)
    (p t : Int) (b : Bool) (mp : Int) :
    ∃ X, cacheLookup (saveResults cache key ids0 p t b mp).2 key =
      some (SearchEntry.state X (p - 1) t (decide (t ≤ p - 1) || b)) := by
  simp only [saveResults]
  by_cases hc : (ids0.isEmpty && (decide (t ≤ p - 1) || b)) = true
  · rw [if_pos hc]
    have hT : (decide (t ≤ p - 1) || b) = true := by
      have hc' := hc
      simp only [Bool.and_eq_true] at hc'
      exact hc'.2
    rw [hT]
    exact ⟨[], by simp [cacheLookup_cacheInsert_self]⟩
  · rw [if_neg hc]
    exact ⟨List.insertionSort sLe ids0, by simp [cacheLookup_cacheInsert_self]⟩

theorem afterLoop_complete_iff (cache : SearchCache) (key : String) (mp : Int)
    (lo : LoopOut) (P : Int → Prop)
    (hchar : ∀ ids' p' t' b, lo.exit = LoopExit.finished ids' p' t' b →
      (b = true → p' ≤ mp ∧ P p') ∧ (b = false → t' < p' ∨ mp < p'))
    (ids : List String) (warn : Option String)
    (hdone : (afterLoop cache key mp lo).r = SearchRet.done ids warn)
    (lp tp : Int) (cpl : Bool)
    (hentry : cacheLookup (afterLoop cache key mp lo).cache key =
      some (SearchEntry.state ids lp tp cpl)) :
    cpl = true ↔ tp ≤ lp ∨ (lp < mp ∧ P (lp + 1)) := by
  rcases lo with ⟨ex, tr⟩
  cases ex with
  | lowBalance => simp [afterLoop] at hdone
  | retry => simp [afterLoop] at hdone
  | finished ids0 p0 t0 b0 =>
    obtain ⟨hb_true, hb_false⟩ := hchar ids0 p0 t0 b0 rfl
    obtain ⟨X, hX⟩ := saveResults_entry cache key ids0 p0 t0 b0 mp
    have hent : cacheLookup (saveResults cache key ids0 p0 t0 b0 mp).2 key =
        some (SearchEntry.state ids lp tp cpl) := by
      simpa [afterLoop] using hentry
    rw [hX] at hent
    obtain ⟨-, h1, h2, h3⟩ : X = ids ∧ p0 - 1 = lp ∧ t0 = tp ∧
        (decide (t0 ≤ p0 - 1) || b0) = cpl := by simpa using hent
    subst h1
    subst h2
    subst h3
    cases b0 with
    | true =>
      obtain ⟨hple, hP⟩ := hb_true rfl
      have hp0 : p0 - 1 + 1 = p0 := by omega
      refine iff_of_true (by simp) (Or.inr ⟨by omega, by rwa [hp0]⟩)
    | false =>
      constructor
      · intro hC
        left
        simpa using hC
      · intro hR
        rcases hR with hR | ⟨hlt, -⟩
        · simpa using hR
        · have hf := hb_false rfl
          have hle : t0 ≤ p0 - 1 := by omega
          simpa using hle

/-- C3, counterexample.  A page that does carry results but whose
`PagesCount` field fails to parse makes the loop break early, and the run is
cached as complete: the stored entry has `is_complete = true` while its
declared pages were not consumed (`last_page_fetched = 0 < total_pages = 1`)
and the page was not an end-of-data page (its result list was non-empty) —
falsifying the claimed "iff". -/
theorem C3_counterexample :
    cacheLookup (search_cases envBadPagesCount "d" "c" [] 5).cache "d|c" =
      some (SearchEntry.state ["X"] 0 1 true) ∧
    ¬ (1 : Int) ≤ 0 ∧
    envBadPagesCount "d|c" 1 =
      Transport.ok ⟨none, some 200, ⟨[⟨some "X"⟩], some none⟩⟩ ∧
    ([⟨some "X"⟩] : List SearchCase) ≠ [] := by
  refine ⟨by decide, by decide, by decide, by decide⟩

/-- C3 (amended): for every search run that reaches the result-saving step
(no cached short-circuit, a `done` return), the stored `is_complete` flag is
true iff all declared pages were consumed (`total_pages ≤ last_page_fetched`)
OR the loop stopped inside the admissible page range on a break page: the
page after the last fetched one answered with a permanent API failure, an
empty/falsy result list, or an unparsable `PagesCount` field.  (The claim's
"end-of-data page" is only one of the three break causes.) -/
theorem C3_amended_theorem (env : String → Int → Transport SearchPage) (d cr : String)
    (cache : SearchCache) (mp : Int)
    (hsc : shortCircuit (cacheLookup cache (d ++ "|" ++ cr)) = none)
    (ids : List String) (warn : Option String)
    (hdone : (search_cases env d cr cache mp).r = SearchRet.done ids warn)
    (lp tp : Int) (cpl : Bool)
    (hentry : cacheLookup (search_cases env d cr cache mp).cache (d ++ "|" ++ cr) =
      some (SearchEntry.state ids lp tp cpl)) :
    cpl = true ↔
      tp ≤ lp ∨ (lp < mp ∧ isBreakPage (env (d ++ "|" ++ cr) (lp + 1))) := by
  unfold search_cases at hdone hentry
  simp only [hsc] at hdone hentry
  unfold searchMain at hdone hentry
  exact afterLoop_complete_iff cache (d ++ "|" ++ cr) mp _
    (fun p => isBreakPage (env (d ++ "|" ++ cr) p))
    (fun ids' p' t' b hex =>
      searchLoop_finished_exits (env (d ++ "|" ++ cr)) (d ++ "|" ++ cr) mp _ _ _ _
        (Nat.le_refl _) ids' p' t' b hex)
    ids warn hdone lp tp cpl hentry

/-- C3, witness for the amended theorem at the unparsable-`PagesCount`
run. -/
theorem C3_amended_witness :
    (true = true) ↔
      ((1 : Int) ≤ 0 ∨ ((0 : Int) < 5 ∧ isBreakPage (envBadPagesCount "d|c" 1))) :=
  C3_amended_theorem envBadPagesCount "d" "c" [] 5 (by decide) ["X"] none (by decide)
    0 1 true (by decide)

/-! ## C8 -/

theorem seqKeys_append (a b : Trace) : seqKeys (a ++ b) = seqKeys a ++ seqKeys b := by
  simp [seqKeys]

theorem seqKeys_searchLoop (env : Int → Transport SearchPage) (key : String) (mp : Int) :
    ∀ (fuel : Nat) (ids : List String) (p t : Int),
      seqKeys ((searchLoop env key mp fuel ids p t).trace) = [] := by
  intro fuel
  induction fuel with
  | zero => intro ids p t; simp [searchLoop, seqKeys]
  | succ fuel ih =>
    intro ids p t
    simp only [searchLoop]
    by_cases hc : p ≤ t ∧ p ≤ mp
    · rw [if_pos hc]
      rcases hm : make_api_request (env p) with _ | _ | _ | r <;> simp only [hm]
      · simp [seqKeys]
      · simp [seqKeys]
      · simp [seqKeys]
      · rcases hr : r.payload.result with _ | ⟨c0, cs0⟩ <;> simp only [hr]
        · simp [seqKeys]
        · rcases hpc : r.payload.pagesCount with _ | pc0
          · simpa [seqKeys] using ih _ _ _
          · cases pc0 with
            | none => simp [seqKeys]
            | some kk => simpa [seqKeys] using ih _ _ _
    · rw [if_neg hc]
      simp [seqKeys]

theorem seqKeys_get_case_info (env : String → Transport (Option CaseResult))
    (id : String) (cache : CaseCache) :
    seqKeys ((get_case_info env id cache).trace) = [] := by
  unfold get_case_info
  rcases hc : cacheLookup cache id with _ | v
  · rcases hm : make_api_request (env id) with _ | _ | _ | r <;> simp [hm, seqKeys]
  · simp [seqKeys]

theorem seqKeys_caseLoop (env : String → Transport (Option CaseResult)) :
    ∀ (ids : List String) (cic : CaseCache) (acc : List Document),
      seqKeys ((caseLoop env ids cic acc).trace) = [] := by
  intro ids
  induction ids with
  | nil => intro cic acc; simp [caseLoop, seqKeys]
  | cons i rest ih =>
    intro cic acc
    simp only [caseLoop]
    rcases hg : get_case_info env i cic with ⟨r, cic', tr⟩
    have htr : seqKeys tr = [] := by
      have h0 := seqKeys_get_case_info env i cic
      rw [hg] at h0
      exact h0
    rcases r with _ | ⟨resp, retry⟩
    · exact htr
    · cases retry with
      | true => simpa using htr
      | false =>
        show seqKeys (tr ++ (caseLoop env rest cic' (updateDocs acc resp)).trace) = []
        rw [seqKeys_append, htr, ih]
        rfl

theorem seqKeys_afterLoop (cache : SearchCache) (key : String) (mp : Int) (lo : LoopOut)
    (h : seqKeys lo.trace = []) :
    seqKeys ((afterLoop cache key mp lo).trace) = [key] := by
  rcases lo with ⟨ex, tr⟩
  cases ex <;> simp_all [afterLoop, seqKeys]

theorem seqKeys_search_cases (env : String → Int → Transport SearchPage) (d cr : String)
    (cache : SearchCache) (mp : Int) :
    seqKeys ((search_cases env d cr cache mp).trace) = [d ++ "|" ++ cr] := by
  unfold search_cases
  rcases hsc : shortCircuit (cacheLookup cache (d ++ "|" ++ cr)) with _ | ids
  · simp only [hsc]
    unfold searchMain
    exact seqKeys_afterLoop _ _ _ _ (seqKeys_searchLoop _ _ _ _ _ _ _)
  · simp only [hsc]
    simp [seqKeys]

theorem seqKeys_process_inn_pair (w : World) (d cr : String) (sc : SearchCache)
    (cic : CaseCache) (mp : Int) :
    seqKeys ((process_inn_pair w d cr sc cic mp).trace) = [d ++ "|" ++ cr] := by
  unfold process_inn_pair
  rcases hs : search_cases w.searchEnv d cr sc mp with ⟨r, sc', tr⟩
  have htr : seqKeys tr = [d ++ "|" ++ cr] := by
    have h0 := seqKeys_search_cases w.searchEnv d cr sc mp
    rw [hs] at h0
    exact h0
  cases r with
  | lowBalance => exact htr
  | retry => exact htr
  | done ids warn =>
    simp only
    by_cases hi : ids.isEmpty
    · rw [if_pos hi]
      exact htr
    · rw [if_neg hi]
      rcases hcl : caseLoop w.caseEnv ids cic [] with ⟨r2, cic2, tr2⟩
      have htr2 : seqKeys tr2 = [] := by
        have h0 := seqKeys_caseLoop w.caseEnv ids cic []
        rw [hcl] at h0
        exact h0
      cases r2 <;> simp only <;> rw [seqKeys_append, htr, htr2, List.append_nil]

theorem seqKeys_processKey (w : World) (mp : Int) (k : String) (c : Caches)
    (d cr : String) (hsp : pySplit '|' k = [d, cr]) (hd : d ≠ "") (hcr : cr ≠ "") :
    seqKeys ((processKey w mp k c).2.2) = [d ++ "|" ++ cr] := by
  unfold processKey
  simp only [hsp]
  rw [if_neg (by simp [hd, hcr])]
  rcases hp : process_inn_pair w d cr c.searchC c.caseC mp with ⟨r, sc, cic, tr⟩
  have htr : seqKeys tr = [d ++ "|" ++ cr] := by
    have h0 := seqKeys_process_inn_pair w d cr c.searchC c.caseC mp
    rw [hp] at h0
    exact h0
  cases r <;> simp [finishKey] <;> exact htr

theorem seqKeys_runKeys (w : World) (mp : Int) :
    ∀ (keys : List String) (c : Caches),
      (∀ k ∈ keys, ValidKey k) →
      (runKeys w mp keys c).stopped = false →
      seqKeys ((runKeys w mp keys c).trace) = keys := by
  intro keys
  induction keys with
  | nil => intro c _ _; simp [runKeys, seqKeys]
  | cons k ks ih =>
    intro c hv hst
    rcases hp : processKey w mp k c with ⟨o, c', tr⟩
    obtain ⟨d, cr, hsp, hd, hcr, hrec⟩ := hv k (List.mem_cons_self _ _)
    have htr : seqKeys tr = [k] := by
      have h0 := seqKeys_processKey w mp k c d cr hsp hd hcr
      rw [hp] at h0
      rw [hrec] at h0
      exact h0
    cases o with
    | none =>
      rw [show runKeys w mp (k :: ks) c = ⟨c', tr, true⟩ from by simp [runKeys, hp]] at hst
      cases hst
    | some r =>
      have hrw : runKeys w mp (k :: ks) c =
          ⟨(runKeys w mp ks c').caches, tr ++ (runKeys w mp ks c').trace,
           (runKeys w mp ks c').stopped⟩ := by
        simp [runKeys, hp]
      rw [hrw] at hst ⊢
      simp only at hst ⊢
      rw [seqKeys_append, htr,
        ih c' (fun k' hk' => hv k' (List.mem_cons_of_mem _ hk')) hst]
      rfl

theorem keysToFetch_nodup (rows : List (String × String)) (rc : Cache String) :
    (keysToFetch rows rc).Nodup :=
  (firstDedup_nodup _).filter _

/-- C8, counterexample.  A one-row table whose debtor INN is empty yields
the unique key `|123`, which is not in the results cache; the claim demands
exactly one search sequence for it, but the run performs none — the key is
answered with the invalid-INN sentinel without any search. -/
theorem C8_counterexample :
    keysToFetch [("", "123")] ([] : Cache String) = ["|123"] ∧
    seqKeys ((main worldDown 1 [("", "123")] emptyCaches).trace) = [] := by
  refine ⟨by decide, by decide⟩

/-- C8 (amended): for a run that is not stopped by the balance guard and
whose pending keys are all well-formed (both INNs non-empty and free of the
separator), the batch driver performs exactly one search sequence per unique
key not already in the results cache, in first-occurrence order and with no
key repeated; and it emits exactly one output entry per input row, rows with
equal keys receiving equal values and any key absent from the final results
cache falling back to the network-error retry sentinel.  Malformed keys
(an empty or separator-containing INN) receive a fixed invalid-key sentinel
without any search sequence. -/
theorem C8_amended_theorem (w : World) (mp : Int) (rows : List (String × String))
    (c : Caches)
    (hst : (main w mp rows c).stopped = false)
    (hv : ∀ k ∈ keysToFetch rows c.resultsC, ValidKey k) :
    seqKeys ((main w mp rows c).trace) = keysToFetch rows c.resultsC ∧
    (keysToFetch rows c.resultsC).Nodup ∧
    (main w mp rows c).output.length = rows.length ∧
    (∀ i j r1 r2, rows.get? i = some r1 → rows.get? j = some r2 →
      mkKey r1 = mkKey r2 →
      (main w mp rows c).output.get? i = (main w mp rows c).output.get? j) ∧
    (∀ i r1, rows.get? i = some r1 →
      cacheLookup (main w mp rows c).caches.resultsC (mkKey r1) = none →
      (main w mp rows c).output.get? i = some RESULT_API_RETRY_ERROR) := by
  refine ⟨?_, keysToFetch_nodup rows c.resultsC, ?_, ?_, ?_⟩
  · exact seqKeys_runKeys w mp (keysToFetch rows c.resultsC) c hv hst
  · simp [main]
  · intro i j r1 r2 h1 h2 hk
    simp only [main, List.get?_map, h1, h2]
    simp [hk]
  · intro i r1 h1 hnone
    simp only [main] at hnone ⊢
    rw [List.get?_map, h1]
    simp [hnone]

/-- C8, witness for the amended theorem: three rows over two unique valid
keys yield exactly the two search sequences, three output entries, and
duplicate rows share their value. -/
theorem C8_amended_witness :
    seqKeys ((main worldNoCases 1 [("1", "2"), ("1", "2"), ("3", "4")] emptyCaches).trace) =
      keysToFetch [("1", "2"), ("1", "2"), ("3", "4")] emptyCaches.resultsC ∧
    (keysToFetch [("1", "2"), ("1", "2"), ("3", "4")] emptyCaches.resultsC).Nodup ∧
    (main worldNoCases 1 [("1", "2"), ("1", "2"), ("3", "4")] emptyCaches).output.length = 3 ∧
    (∀ i j r1 r2,
      [("1", "2"), ("1", "2"), ("3", "4")].get? i = some r1 →
      [("1", "2"), ("1", "2"), ("3", "4")].get? j = some r2 →
      mkKey r1 = mkKey r2 →
      (main worldNoCases 1 [("1", "2"), ("1", "2"), ("3", "4")] emptyCaches).output.get? i =
        (main worldNoCases 1 [("1", "2"), ("1", "2"), ("3", "4")] emptyCaches).output.get? j) ∧
    (∀ i r1, [("1", "2"), ("1", "2"), ("3", "4")].get? i = some r1 →
      cacheLookup
        (main worldNoCases 1 [("1", "2"), ("1", "2"), ("3", "4")] emptyCaches).caches.resultsC
        (mkKey r1) = none →
      (main worldNoCases 1 [("1", "2"), ("1", "2"), ("3", "4")] emptyCaches).output.get? i =
        some RESULT_API_RETRY_ERROR) :=
  C8_amended_theorem worldNoCases 1 [("1", "2"), ("1", "2"), ("3", "4")] emptyCaches
    (by decide)
    (by
      intro k hk
      have hks : keysToFetch [("1", "2"), ("1", "2"), ("3", "4")] emptyCaches.resultsC =
          ["1|2", "3|4"] := by decide
      rw [hks] at hk
      have hk' : k = "1|2" ∨ k = "3|4" := by simpa using hk
      rcases hk' with rfl | rfl
      · exact ⟨"1", "2", by decide, by decide, by decide, by decide⟩
      · exact ⟨"3", "4", by decide, by decide, by decide, by decide⟩)

/-! ## C10 -/

/-- C10: the low-balance guard fires before the application-status check and
before any payload reaches a caller — a response whose balance is at or
below the threshold classifies as the stop signal no matter what its status
or payload is — and neither `search_cases` nor `get_case_info` mutates its
cache when the stop signal propagates out of it, so pagination state
collected during the interrupted attempt is never written. -/
theorem C10_theorem :
    (∀ (α : Type) (r : RawResponse α) (b : ℚ), r.balance = some (some b) →
      b ≤ LOW_BALANCE_THRESHOLD →
      make_api_request (Transport.ok r) = ApiResult.lowBalance) ∧
    (∀ env d cr cache mp, (search_cases env d cr cache mp).r = SearchRet.lowBalance →
      (search_cases env d cr cache mp).cache = cache) ∧
    (∀ env id cache, (get_case_info env id cache).r = CaseRet.lowBalance →
      (get_case_info env id cache).cache = cache) := by
  refine ⟨?_, ?_, ?_⟩
  · intro α r b hb hle
    simp [make_api_request, hb, hle]
  · intro env d cr cache mp h
    unfold search_cases at h ⊢
    rcases hsc : shortCircuit (cacheLookup cache (d ++ "|" ++ cr)) with _ | ids
    · simp only [hsc] at h ⊢
      unfold searchMain at h ⊢
      exact afterLoop_lowBalance _ _ _ _ h
    · simp only [hsc] at h
      cases h
  · intro env id cache h
    rcases hc : cacheLookup cache id with _ | r0
    · rcases hm : make_api_request (env id) with _ | _ | _ | r1 <;>
        simp [get_case_info, hc, hm] at h ⊢
    · simp [get_case_info, hc] at h

/-- C10, witness: the concrete low-balance response with a non-ok status
classifies as the stop signal, and a search whose page 1 trips the guard
leaves the search cache empty. -/
theorem C10_witness :
    make_api_request (Transport.ok respLowBalanceBadStatus) = ApiResult.lowBalance ∧
    (search_cases worldLowBalAtBC.searchEnv "b" "c" [] 1).cache = [] ∧
    (get_case_info (fun _ => Transport.ok respLowBalanceBadStatus) "case1" []).cache = [] :=
  ⟨C10_theorem.1 (Option CaseResult) respLowBalanceBadStatus 50 rfl (by decide),
   C10_theorem.2.1 worldLowBalAtBC.searchEnv "b" "c" [] 1 (by decide),
   C10_theorem.2.2 (fun _ => Transport.ok respLowBalanceBadStatus) "case1" [] (by decide)⟩

end CourtLinks
